import Mathlib

/-!
Verification development for the chargebee-types documentation scraper.

The TypeScript source walks a parsed HTML ("hast") tree of the vendor's API
documentation and emits TypeScript declaration ASTs.  This file gives a
shallow embedding of the tree-walking core:

  * the hast node model (`Node`, with a node identity tag `nid` standing for
    JavaScript reference identity),
  * the structural locator `getAdjacentElement` (both source revisions),
  * `snakeCaseToPascalCase` / `fromSnakeCaseToPascalCase`,
  * the attribute extractor `generateInterfacePropertySignature`
    (fuel-indexed to make the recursion structural; JavaScript `throw` is
    modelled by `Except.error`, `console.warn` by an accumulated list of
    warning strings),
  * the auxiliary-type collector `generateModuleInterfaces`.

JavaScript string primitives (`split`, `trim`, `replace` of the first
occurrence, `includes`, `startsWith`, one-character `toUpperCase`) are
re-implemented structurally over `List Char` so that all definitions reduce
inside the kernel; the tool only ever meets ASCII identifiers, so the ASCII
case table is the faithful domain of `toUpperCase` here.
-/

set_option autoImplicit false

namespace Chargebee

/-- ASCII one-character uppercase step, the effect of JavaScript
`toUpperCase` on the ASCII range this generator handles (97..122 are the
code points of the lowercase letters). -/
def jsToUpperChar (c : Char) : Char :=
  if 97 ≤ c.toNat ∧ c.toNat ≤ 122 then Char.ofNat (c.toNat - 32) else c

/-- Fuel-driven worker for `String.prototype.split` with a non-empty
separator; `fuel` is instantiated with the length of the input so the
recursion is structural. -/
def splitGo (sep : List Char) : Nat → List Char → List Char → List (List Char)
  | 0, s, acc => [acc.reverse ++ s]
  | fuel + 1, s, acc =>
    match s with
    | [] => [acc.reverse]
    | c :: rest =>
      if sep.isPrefixOf (c :: rest) then
        acc.reverse :: splitGo sep fuel ((c :: rest).drop sep.length) []
      else
        splitGo sep fuel rest (c :: acc)

/-- JavaScript `s.split(sep)` on character lists, for a non-empty `sep`. -/
def splitOnL (sep s : List Char) : List (List Char) := splitGo sep s.length s []

/-- JavaScript `s.split(sep)`. -/
def jsSplit (sep s : String) : List String :=
  (splitOnL sep.data s.data).map (fun l => String.mk l)

/-- The whitespace characters relevant to `String.prototype.trim` in this
code base (the documentation text is ASCII). -/
def isJsWhitespace (c : Char) : Bool :=
  c == ' ' || c == '\t' || c == '\n' || c == '\r'

/-- JavaScript `s.trim()` on character lists. -/
def trimL (s : List Char) : List Char :=
  ((s.dropWhile isJsWhitespace).reverse.dropWhile isJsWhitespace).reverse

/-- JavaScript `s.trim()`. -/
def jsTrim (s : String) : String := String.mk (trimL s.data)

/-- Worker for substring containment. -/
def isSubL (needle : List Char) : List Char → Bool
  | [] => needle.isEmpty
  | c :: rest => needle.isPrefixOf (c :: rest) || isSubL needle rest

/-- JavaScript `s.includes(needle)`. -/
def containsSubstrL (s needle : String) : Bool := isSubL needle.data s.data

/-- JavaScript `s.startsWith(pre)`, the effect of the `/^pre/` regex tests
in the source. -/
def startsWithL (s pre : String) : Bool := pre.data.isPrefixOf s.data

/-- JavaScript `s.endsWith(suf)`, the effect of the `/suf$/` regex tests in
the source. -/
def endsWithL (s suf : String) : Bool := suf.data.isSuffixOf s.data

/-- Drops a leading prefix; only used after `startsWithL` succeeded, the
effect of `s.replace(/^pre/, "")`. -/
def dropLeadingL (s pre : String) : String := String.mk (s.data.drop pre.data.length)

/-- Fuel-driven worker for `String.prototype.replace` with a string
pattern, which replaces only the first occurrence. -/
def replaceFirstGo (pat repl : List Char) : Nat → List Char → List Char
  | 0, s => s
  | fuel + 1, s =>
    match s with
    | [] => []
    | c :: rest =>
      if pat.isPrefixOf (c :: rest) then repl ++ (c :: rest).drop pat.length
      else c :: replaceFirstGo pat repl fuel rest

/-- JavaScript `s.replace(pat, repl)` with a string pattern: first
occurrence only. -/
def replaceFirstL (s pat repl : String) : String :=
  String.mk (replaceFirstGo pat.data repl.data s.data.length s.data)

/-- `snakeCaseToPascalCase` from `src/index.ts`:
`snakeCase.split("_").map(seg => seg.slice(0,1).toUpperCase().concat(seg.slice(1))).join("")`. -/
def capitalizeL : List Char → List Char
  | [] => []
  | c :: rest => jsToUpperChar c :: rest

def snakeCaseToPascalCase (snakeCase : String) : String :=
  String.mk (((splitOnL ['_'] snakeCase.data).map capitalizeL).flatten)

/-- `fromSnakeCaseToPascalCase` from `src/parseResource.ts` (the identical
template-literal variant of the same conversion). -/
def fromSnakeCaseToPascalCase (snakeCase : String) : String :=
  String.mk (((splitOnL ['_'] snakeCase.data).map capitalizeL).flatten)

/-- Element attributes used by the extractor.  `nid` models JavaScript
reference identity of the underlying object: two distinct allocations carry
distinct tags. -/
structure ElemData where
  nid : Nat := 0
  tagName : String := "div"
  className : List String := []
  idAttr : Option String := none
  href : Option String := none

/-- A hast document node: element, text or comment. -/
inductive Node where
  | element (data : ElemData) (children : List Node)
  | text (nid : Nat) (value : String)
  | comment (nid : Nat) (value : String)

def Node.isElement : Node → Bool
  | .element _ _ => true
  | _ => false

def Node.children : Node → List Node
  | .element _ cs => cs
  | _ => []

def Node.nid : Node → Nat
  | .element d _ => d.nid
  | .text n _ => n
  | .comment n _ => n

def Node.tagName : Node → String
  | .element d _ => d.tagName
  | _ => ""

def Node.hasClass (n : Node) (c : String) : Bool :=
  match n with
  | .element d _ => d.className.contains c
  | _ => false

def Node.idAttr : Node → Option String
  | .element d _ => d.idAttr
  | _ => none

/-- JavaScript truthiness of `element.properties?.href` (an empty string is
falsy). -/
def Node.hrefTruthy : Node → Bool
  | .element d _ =>
    match d.href with
    | some h => h != ""
    | none => false
  | _ => false

/-- Value of a text node (`child.type === "text"`). -/
def Node.asText? : Node → Option String
  | .text _ v => some v
  | _ => none

/-- The `value` field, present on text and comment nodes alike (reading it
through an `as Text` cast succeeds for both). -/
def Node.valueOf? : Node → Option String
  | .text _ v => some v
  | .comment _ v => some v
  | _ => none

/-- JavaScript `Array.prototype.findIndex` (the `-1` failure value is
handled at each call site). -/
def jsFindIndexGo (p : Node → Bool) : List Node → Nat → Option Nat
  | [], _ => none
  | c :: rest, i => if p c then some i else jsFindIndexGo p rest (i + 1)

def jsFindIndex (p : Node → Bool) (l : List Node) : Option Nat := jsFindIndexGo p l 0

/- Preorder traversal delivering every node together with its parent and
its index among the parent's children, the visit order of
`unist-util-visit` (the traversal root itself comes first, with no
parent). -/
mutual
def preorderWP : Node → Option (Node × Nat) → List (Node × Option (Node × Nat))
  | Node.element d cs, pa => (Node.element d cs, pa) :: preorderWPL cs (Node.element d cs) 0
  | n, pa => [(n, pa)]
def preorderWPL : List Node → Node → Nat → List (Node × Option (Node × Nat))
  | [], _, _ => []
  | c :: rest, parent, i => preorderWP c (some (parent, i)) ++ preorderWPL rest parent (i + 1)
end

/-- The elements delivered by `visit(root, "element", ...)`, in visit
order. -/
def visitedElements (n : Node) : List Node :=
  (preorderWP n none).filterMap (fun p => if p.1.isElement then some p.1 else none)

/-- Same, but keeping the parent/index information the visitor receives. -/
def visitedElementsWP (n : Node) : List (Node × Option (Node × Nat)) :=
  (preorderWP n none).filter (fun p => p.1.isElement)

/-- The text nodes delivered by `visit(root, "text", ...)`, each with its
parent node. -/
def visitedTextsWP (n : Node) : List (String × Option Node) :=
  (preorderWP n none).filterMap (fun p =>
    match p.1 with
    | .text _ v => some (v, p.2.map Prod.fst)
    | _ => none)

/-- `children.find(child => child.type === "element" &&
child.properties?.className.includes(c))`. -/
def childFindClass (n : Node) (c : String) : Option Node :=
  n.children.find? (fun child => child.isElement && child.hasClass c)

/-- `getAdjacentElement` of the primary pipeline revision
(`src/index.ts` lines 14-29): `findIndex` by identity over the parent's
children, then a forward scan skipping non-element nodes. -/
def scanForElement : List Node → Option Node
  | [] => none
  | c :: rest => if c.isElement then some c else scanForElement rest

def getAdjacentElement (node : Node) (parentNode : Node) : Option Node :=
  let children := parentNode.children
  let startIndex : Nat :=
    match jsFindIndex (fun child => child.nid == node.nid) children with
    | some i => i + 1
    | none => 0
  scanForElement (children.drop startIndex)

/-- `getAdjacentElement` of the second source revision: filter the element
children first, locate the node among them, return the next entry
(`indexedChildren[adjustedIndex + 1]`, where a missed lookup contributes
`-1`). -/
def getAdjacentElement2 (element : Node) (parentNode : Node) : Option Node :=
  let indexedChildren := parentNode.children.filter (fun c => c.isElement)
  let nextIndex : Nat :=
    match jsFindIndex (fun c => c.nid == element.nid) indexedChildren with
    | some i => i + 1
    | none => 0
  indexedChildren[nextIndex]?

/- The emitted TypeScript type expressions the extractor can produce, and
emitted property signatures (name, question-token presence, type). -/
mutual
inductive TsType where
  | stringKw
  | numberKw
  | booleanKw
  | objectKw
  | unknownKw
  | arrayOf (elem : TsType)
  | reference (name : String)
  | enumUnion (values : List String)
  | typeLiteral (members : List PropertySignature)
inductive PropertySignature where
  | mk (name : String) (optional : Bool) (type : TsType)
end

def PropertySignature.name : PropertySignature → String
  | .mk n _ _ => n

def PropertySignature.optional : PropertySignature → Bool
  | .mk _ o _ => o

def PropertySignature.type : PropertySignature → TsType
  | .mk _ _ t => t

/-- `Array.prototype.map` where the body may throw: the first exception
aborts the whole map. -/
def mapME {α β : Type} (f : α → Except String β) : List α → Except String (List β)
  | [] => .ok []
  | a :: as =>
    match f a with
    | .error e => .error e
    | .ok b =>
      match mapME f as with
      | .error e => .error e
      | .ok bs => .ok (b :: bs)

/-- A left fold where the body may throw. -/
def foldE {σ α : Type} (f : σ → α → Except String σ) : σ → List α → Except String σ
  | st, [] => .ok st
  | st, a :: as =>
    match f st a with
    | .error e => .error e
    | .ok st2 => foldE f st2 as

/-- Direct-definition property name: the first visited text whose parent is
a `samp` element (lines 159-169 of `src/index.ts`). -/
def findSampText (item : Node) : Option String :=
  ((visitedTextsWP item).find? (fun p =>
    match p.2 with
    | some par => par.tagName == "samp"
    | none => false)).map Prod.fst

/-- Interface-reference property name: every visited anchor element with a
truthy `href` overwrites the name with its first direct text child (so the
last anchor wins); an anchor without a text child throws (lines 173-187). -/
def findRefName (item : Node) : Except String (Option String) :=
  foldE (fun acc el =>
    if el.tagName == "a" && el.hrefTruthy then
      match el.children.findSome? Node.asText? with
      | some v => .ok (some v)
      | none => .error "Failed to retrieve interface reference property name."
    else .ok acc) none (visitedElements item)

/-- First visited `dfn.text-muted` element below (or at) the description
element (lines 201-211). -/
def findDefinitionElement (desc : Node) : Option Node :=
  (visitedElements desc).find? (fun el => el.tagName == "dfn" && el.hasClass "text-muted")

/-- The last visited text sitting directly under a `strong` element (the
unguarded overwrite in the sub-group name visitor, lines 73-83). -/
def lastStrongText (n : Node) : Option String :=
  ((((visitedTextsWP n).filter (fun p =>
      match p.2 with
      | some par => par.tagName == "strong"
      | none => false)).map Prod.fst).getLast?)

/-- One step of the `Supported operators` visitor (lines 279-295): a `b`
element whose first child is a text containing "Supported operators" makes
the visitor read `parent.children[index + 1].value` and split it on ", "
(overwriting any earlier find); a `b` element with no children, a missing
next sibling, or an element sibling (no `value` field) is a runtime
`TypeError`. -/
def operatorStep (acc : Option (List String)) (p : Node × Option (Node × Nat)) :
    Except String (Option (List String)) :=
  if p.1.tagName == "b" then
    match p.1.children.head? with
    | none => .error "TypeError: cannot read property type of undefined"
    | some first =>
      match first with
      | .text _ v =>
        if containsSubstrL v "Supported operators" then
          match p.2 with
          | none => .error "TypeError: cannot read property children of null"
          | some (par, idx) =>
            match (par.children.get? (idx + 1)).bind Node.valueOf? with
            | some opsText => .ok (some (jsSplit ", " opsText))
            | none => .error "TypeError: cannot read property value"
        else .ok acc
      | _ => .ok acc
  else .ok acc

/-- Operator resolution for the filter branch (lines 274-298): `sort_by`
has the hard-coded pair, otherwise the description element is scanned for a
"Supported operators" label. -/
def resolveOperators (baseName : String) (desc : Node) : Except String (List String) :=
  if baseName == "sort_by" then .ok ["asc", "desc"]
  else
    match foldE operatorStep none (visitedElementsWP desc) with
    | .error e => .error e
    | .ok (some operators) => .ok operators
    | .ok none => .error "Unable to parse operators."

/-- Enum-value collection (lines 354-369): every visited `samp.enum`
element contributes its first direct text child, in visit order; a
`samp.enum` without a text child throws. -/
def collectEnumValues (desc : Node) : Except String (List String) :=
  foldE (fun acc el =>
    if el.tagName == "samp" && el.hasClass "enum" then
      match el.children.findSome? Node.asText? with
      | some v => .ok (acc ++ [v])
      | none => .error "Unable to parse enum value."
    else .ok acc) [] (visitedElements desc)

/-- The comma-separated definition list of a property fragment: the
`cb-list-desc` child's first `dfn.text-muted` descendant's first text
child, split on ", " with the segments trimmed (lines 193-229). -/
def fragmentDefinitions (el : Node) : Option (List String) :=
  match childFindClass el "cb-list-desc" with
  | none => none
  | some desc =>
    match findDefinitionElement desc with
    | none => none
    | some definitionElement =>
      match definitionElement.children.findSome? Node.asText? with
      | none => none
      | some t => some ((jsSplit ", " t).map jsTrim)

/-- The six `*filter` definition tokens of lines 264-272. -/
def hasFilterToken (definitions : List String) : Bool :=
  definitions.contains "string filter" ||
  definitions.contains "enumerated string filter" ||
  definitions.contains "integer filter" ||
  definitions.contains "timestamp(UTC) in seconds filter" ||
  definitions.contains "boolean filter" ||
  definitions.contains "in cents filter"

/-- The numeric definition tokens of lines 327-334. -/
def hasNumberToken (definitions : List String) : Bool :=
  definitions.contains "integer" ||
  definitions.contains "in cents" ||
  definitions.contains "timestamp(UTC) in seconds" ||
  definitions.contains "bigdecimal" ||
  definitions.contains "long" ||
  definitions.contains "double"

/-- Reference type name before the hard-coded correction (lines 240-247):
a leading "list of " marks an array reference. -/
def referenceTypeName (interfaceNameDefinition : String) : String :=
  if startsWithL interfaceNameDefinition "list of " then
    snakeCaseToPascalCase (dropLeadingL interfaceNameDefinition "list of ") ++ "[]"
  else
    snakeCaseToPascalCase interfaceNameDefinition

/-- State transition of the inner `cb-list-head` visitor in the sub-group
branch (lines 63-101): the first `cb-list-item` element seen while the name
is still unset contributes its last strong-text; the first `cb-list-desc`
element with a direct text child decides `isArray` by an "Array" substring
test. -/
def subGroupHeadStep (st : Option String × Option Bool) (lhc : Node) :
    Option String × Option Bool :=
  if st.1.isNone && lhc.hasClass "cb-list-item" then
    (lastStrongText lhc, st.2)
  else if st.2.isNone && lhc.hasClass "cb-list-desc" then
    match lhc.children.findSome? Node.asText? with
    | none => st
    | some v => (st.1, some (containsSubstrL v "Array"))
  else st

/-- The attribute extractor `generateInterfacePropertySignature`
(`src/index.ts` lines 55-394).  The `Nat` argument is recursion fuel
(consumed only on recursive descent into sub-fragments); the result carries
the emitted property signatures together with the `console.warn` messages
issued, and `Except.error` models a thrown `Error` (or an uncaught runtime
`TypeError`). -/
def generateInterfacePropertySignature :
    Nat → Node → Except String (List PropertySignature × List String)
  | 0, _ => .error "recursion fuel exhausted"
  | fuel + 1, propertyElement =>
    if propertyElement.hasClass "sub-group" then
      -- Parse parameter interface sub objects (lines 59-139).
      match foldE (fun st el =>
          if el.hasClass "cb-list-head" then
            let inner := (visitedElements el).foldl subGroupHeadStep (st.1, st.2.1)
            .ok (inner.1, inner.2, st.2.2)
          else if st.2.2.isNone && el.hasClass "collapse" then
            match mapME (generateInterfacePropertySignature fuel)
                (el.children.filter (fun c => c.isElement && c.hasClass "cb-sublist-action")) with
            | .error e => .error e
            | .ok rs =>
              .ok (st.1, st.2.1, some ((rs.map Prod.fst).flatten, (rs.map Prod.snd).flatten))
          else .ok st)
          ((none, none, none) :
            Option String × Option Bool × Option (List PropertySignature × List String))
          (visitedElements propertyElement) with
      | .error e => .error e
      | .ok st =>
        match st.1 with
        | none => .error "Unable to parse property name."
        | some propertyName =>
          match st.2.1 with
          | none => .error "Unable to isArray."
          | some isArray =>
            match st.2.2 with
            | none => .error "Unable to parse property signatures."
            | some (sigs, ws) =>
              .ok ([⟨propertyName, true,
                    if isArray then .arrayOf (.typeLiteral sigs) else .typeLiteral sigs⟩], ws)
    else
      let isInterfaceReference :=
        !(propertyElement.hasClass "cb-list-action") &&
        !(propertyElement.hasClass "cb-sublist-action")
      match childFindClass propertyElement "cb-list-item" with
      | none => .error "Unable to locate property item element."
      | some propertyItemElement =>
        match (if isInterfaceReference then findRefName propertyItemElement
               else .ok (findSampText propertyItemElement)) with
        | .error e => .error e
        | .ok none => .error "Unable to locate property name."
        | .ok (some propertyName) =>
          if propertyName == "" then .error "Unable to locate property name."
          else
            match childFindClass propertyElement "cb-list-desc" with
            | none => .error "Unable to locate property description element."
            | some propertyDescriptionElement =>
              match findDefinitionElement propertyDescriptionElement with
              | none => .error "Could not locate property definition element."
              | some definitionElement =>
                match definitionElement.children.findSome? Node.asText? with
                | none => .error "Unable to locate definition text."
                | some definitionTextValue =>
                  let definitions := (jsSplit ", " definitionTextValue).map jsTrim
                  let isOptional := definitions.contains "optional"
                  let typePropertiesElement := childFindClass propertyElement "cb-list-group-in"
                  if isInterfaceReference then
                    match (definitions.filter (fun d => d != "optional")).head? with
                    | none => .error "TypeError: undefined interface name definition"
                    | some interfaceNameDefinition =>
                      let interfaceName := referenceTypeName interfaceNameDefinition
                      if interfaceName == "UnbilledCharge[]" then
                        .ok ([⟨propertyName, isOptional, .reference "UnbilledChargeEstimate[]"⟩],
                          ["Overriding type reference of UnbilledCharge[] to UnbilledChargeEstimate[]"])
                      else
                        .ok ([⟨propertyName, isOptional, .reference interfaceName⟩], [])
                  else if hasFilterToken definitions then
                    let baseName := replaceFirstL (jsTrim propertyName) "[" ""
                    match resolveOperators baseName propertyDescriptionElement with
                    | .error e => .error e
                    | .ok operators =>
                      .ok (operators.map (fun op =>
                        ⟨baseName ++ "[" ++ op ++ "]", isOptional, .unknownKw⟩), [])
                  else
                    match typePropertiesElement with
                    | some tp =>
                      match mapME (generateInterfacePropertySignature fuel)
                          (tp.children.filter (fun c =>
                            c.isElement && c.hasClass "cb-sublist-action")) with
                      | .error e => .error e
                      | .ok rs =>
                        match mapME (fun (r : List PropertySignature × List String) =>
                            match r.1.head? with
                            | some s => (.ok s : Except String PropertySignature)
                            | none => .error "TypeError: undefined member") rs with
                        | .error e => .error e
                        | .ok members =>
                          .ok ([⟨propertyName, isOptional, .typeLiteral members⟩],
                            (rs.map Prod.snd).flatten)
                    | none =>
                      if definitions.contains "string" then
                        .ok ([⟨propertyName, isOptional, .stringKw⟩], [])
                      else if definitions.contains "list of string" then
                        .ok ([⟨propertyName, isOptional, .arrayOf .stringKw⟩], [])
                      else if hasNumberToken definitions then
                        .ok ([⟨propertyName, isOptional, .numberKw⟩], [])
                      else if definitions.contains "boolean" then
                        .ok ([⟨propertyName, isOptional, .booleanKw⟩], [])
                      else if definitions.contains "jsonobject" then
                        .ok ([⟨propertyName, isOptional, .objectKw⟩], [])
                      else if definitions.contains "jsonarray" then
                        if propertyName == "notes" then
                          .ok ([⟨propertyName, isOptional, .arrayOf .stringKw⟩],
                            ["Assuming array of strings for field: " ++ propertyName])
                        else if propertyName == "exemption_details" then
                          .ok ([⟨propertyName, isOptional, .arrayOf .unknownKw⟩], [])
                        else .error ("Unknown array type for field: " ++ propertyName)
                      else if definitions.contains "enumerated string" then
                        match collectEnumValues propertyDescriptionElement with
                        | .error e => .error e
                        | .ok [] =>
                          .ok ([⟨propertyName, isOptional, .stringKw⟩],
                            ["Unable to parse string enum property for: " ++ propertyName])
                        | .ok vs =>
                          .ok ([⟨propertyName, isOptional, .enumUnion vs⟩], [])
                      else
                        .ok ([⟨propertyName, isOptional, .unknownKw⟩], [])

/-- A hast `Root`: the parse tree of one documentation page. -/
structure Root where
  children : List Node

/-- Internal device giving the root a `Node` face so that top-level
elements still have a parent whose `children` is the root's child list
(as `unist-util-visit` reports). -/
def rootNode (r : Root) : Node := .element { tagName := "root" } r.children

/-- The elements `visit(tree, "element", ...)` delivers for a whole page,
with parent and index; the root node itself has type "root" and is not
visited. -/
def rootElements (r : Root) : List (Node × Option (Node × Nat)) :=
  (preorderWPL r.children (rootNode r) 0).filter (fun p => p.1.isElement)

/-- The sibling-collection loop of lines 433-442: starting after the
heading, non-element siblings are skipped, elements carrying the `cb-list`
marker are collected, and the first element sibling without the marker
stops the walk. -/
def takeContiguousCbList : List Node → List Node
  | [] => []
  | c :: rest =>
    if !c.isElement then takeContiguousCbList rest
    else if c.hasClass "cb-list" then c :: takeContiguousCbList rest
    else []

/-- What one visited element contributes to `generateModuleInterfaces`
(lines 413-458): a `div.page-header` whose `h4` child's id ends in
`_attributes` yields one interface declaration (name and properties)
plus the warnings of the property extraction. -/
def headerContribution (fuel : Nat) (entry : Node × Option (Node × Nat)) :
    Except String (Option (String × List PropertySignature) × List String) :=
  if entry.1.tagName == "div" && entry.1.hasClass "page-header" then
    match entry.1.children.find? (fun c => c.tagName == "h4") with
    | none => .ok (none, [])
    | some headingElement =>
      let id := headingElement.idAttr.getD ""
      if endsWithL id "_attributes" then
        match entry.2 with
        | none => .error "TypeError: cannot read property children of null"
        | some (parent, index) =>
          match mapME (generateInterfacePropertySignature fuel)
              (takeContiguousCbList (parent.children.drop (index + 1))) with
          | .error e => .error e
          | .ok rs =>
            .ok (some (snakeCaseToPascalCase (replaceFirstL id "_attributes" ""),
                 (rs.map Prod.fst).flatten), (rs.map Prod.snd).flatten)
      else .ok (none, [])
  else .ok (none, [])

/-- `generateModuleInterfaces` (`src/index.ts` lines 408-461): every
visited element contributes via `headerContribution`; the declarations are
collected in visit order. -/
def generateModuleInterfaces (fuel : Nat) (r : Root) :
    Except String (List (String × List PropertySignature) × List String) :=
  match mapME (headerContribution fuel) (rootElements r) with
  | .error e => .error e
  | .ok contribs =>
    .ok (contribs.filterMap Prod.fst, (contribs.map Prod.snd).flatten)

/-! Concrete sample fragments, used by the witnesses and counterexamples
below.  They are minimal instances of the documentation markup shapes the
extractor consumes. -/

/-- A `sort_by` filter fragment (direct definition, `string filter,
optional`). -/
def sampleFilterDfn : Node :=
  .element { tagName := "dfn", className := ["text-muted"] } [.text 0 "string filter, optional"]

def sampleFilterItem : Node :=
  .element { className := ["cb-list-item"] } [
    .element { tagName := "samp" } [.text 0 "sort_by["]]

def sampleFilterDesc : Node :=
  .element { className := ["cb-list-desc"] } [sampleFilterDfn]

def sampleFilterFragment : Node :=
  .element { className := ["cb-list-action"] } [sampleFilterItem, sampleFilterDesc]

/-- An enumerated-string fragment with a duplicated enum value. -/
def sampleEnumDfn : Node :=
  .element { tagName := "dfn", className := ["text-muted"] } [.text 0 "enumerated string"]

def sampleEnumItem : Node :=
  .element { className := ["cb-list-item"] } [
    .element { tagName := "samp" } [.text 0 "status"]]

def sampleEnumDesc : Node :=
  .element { className := ["cb-list-desc"] } [
    sampleEnumDfn,
    .element { tagName := "samp", className := ["enum"] } [.text 0 "active"],
    .element { tagName := "samp", className := ["enum"] } [.text 0 "active"]]

def sampleEnumFragment : Node :=
  .element { className := ["cb-list-action"] } [sampleEnumItem, sampleEnumDesc]

/-- An interface-reference fragment whose definition token resolves to
`UnbilledCharge[]`. -/
def sampleUnbilledDfn : Node :=
  .element { tagName := "dfn", className := ["text-muted"] } [.text 0 "list of unbilled_charge, optional"]

def sampleUnbilledItem : Node :=
  .element { className := ["cb-list-item"] } [
    .element { tagName := "a", href := some "/docs/api/unbilled_charges" } [
      .text 0 "unbilled_charges"]]

def sampleUnbilledDesc : Node :=
  .element { className := ["cb-list-desc"] } [sampleUnbilledDfn]

def sampleUnbilledFragment : Node :=
  .element {} [sampleUnbilledItem, sampleUnbilledDesc]

/-- A sub-group fragment whose own definition list is `string` (no
`optional` token): the extractor still emits it optional. -/
def sampleSubGroupFragment : Node :=
  .element { className := ["sub-group"] } [
    .element { className := ["cb-list-head"] } [
      .element { className := ["cb-list-item"] } [
        .element { tagName := "strong" } [.text 0 "foo"]],
      .element { className := ["cb-list-desc"] } [.text 0 "Array of objects"]],
    .element { className := ["collapse"] } [],
    .element { className := ["cb-list-desc"] } [
      .element { tagName := "dfn", className := ["text-muted"] } [.text 0 "string"]]]

/-- A plain direct string property marked `optional`. -/
def sampleStringFragment : Node :=
  .element { className := ["cb-list-action"] } [
    .element { className := ["cb-list-item"] } [
      .element { tagName := "samp" } [.text 0 "price"]],
    .element { className := ["cb-list-desc"] } [
      .element { tagName := "dfn", className := ["text-muted"] } [.text 0 "string, optional"]]]

/-- A `jsonarray` fragment named `notes`. -/
def sampleNotesDfn : Node :=
  .element { tagName := "dfn", className := ["text-muted"] } [.text 0 "jsonarray"]

def sampleNotesItem : Node :=
  .element { className := ["cb-list-item"] } [
    .element { tagName := "samp" } [.text 0 "notes"]]

def sampleNotesDesc : Node :=
  .element { className := ["cb-list-desc"] } [sampleNotesDfn]

def sampleNotesFragment : Node :=
  .element { className := ["cb-list-action"] } [sampleNotesItem, sampleNotesDesc]

/-- A sub-group fragment without an "Array" marker text. -/
def sampleSubGroupPlain : Node :=
  .element { className := ["sub-group"] } [
    .element { className := ["cb-list-head"] } [
      .element { className := ["cb-list-item"] } [
        .element { tagName := "strong" } [.text 0 "billing_address"]],
      .element { className := ["cb-list-desc"] } [.text 0 "Parameters for the object"]],
    .element { className := ["collapse"] } []]

/-- A page with one auxiliary `_attributes` section followed by one
`cb-list` property fragment and a stopper element. -/
def sampleAuxHeading : Node := .element { tagName := "h4", idAttr := some "linked_invoice_attributes" } []

def sampleAuxHeader : Node := .element { className := ["page-header"] } [sampleAuxHeading]

def sampleAuxProp : Node :=
  .element { className := ["cb-list", "cb-list-action"] } [
    .element { className := ["cb-list-item"] } [
      .element { tagName := "samp" } [.text 0 "amount"]],
    .element { className := ["cb-list-desc"] } [
      .element { tagName := "dfn", className := ["text-muted"] } [.text 0 "in cents"]]]

def sampleAuxStop : Node := .element { className := ["other"] } []

def sampleAuxRoot : Root := ⟨[sampleAuxHeader, .text 7 "gap", sampleAuxProp, sampleAuxStop]⟩

/-- A parent with a text child, a comment child and two element children,
for the sibling-lookup samples. -/
def sampleSibText : Node := .text 1 "x"

def sampleSibElemA : Node := .element { nid := 2, tagName := "span" } []

def sampleSibElemB : Node := .element { nid := 3 } []

def sampleSibParent : Node :=
  .element { nid := 0 } [sampleSibText, .comment 4 "gap", sampleSibElemA, sampleSibElemB]

/-- A node that is not one of `sampleSibParent`'s children. -/
def sampleStray : Node := .element { nid := 99 } []

/-! Structural-locator lemmas. -/

lemma scanForElement_eq_find (l : List Node) :
    scanForElement l = l.find? (fun c => c.isElement) := by
  induction l with
  | nil => rfl
  | cons c rest ih =>
    by_cases hc : c.isElement <;> simp [scanForElement, List.find?_cons, hc, ih]

lemma jsFindIndexGo_eq_none {p : Node → Bool} {l : List Node} {i : Nat} :
    jsFindIndexGo p l i = none ↔ ∀ x ∈ l, p x = false := by
  induction l generalizing i with
  | nil => simp [jsFindIndexGo]
  | cons c rest ih =>
    by_cases hc : p c <;> simp [jsFindIndexGo, hc, ih]

lemma filter_getZero_eq_find (q : Node → Bool) (l : List Node) :
    (l.filter q)[(0 : Nat)]? = l.find? q := by
  induction l with
  | nil => rfl
  | cons c rest ih =>
    by_cases hc : q c <;> simp [List.filter_cons, List.find?_cons, hc, ih]

/-- C7: the adjacent-element lookup is total (it returns an `Option`, never
throws) and, for a node sitting at position `i` among the parent's children
(located by identity, here the `nid` tag), it scans the children strictly
after `i`, skips non-element nodes, and returns the first element found or
`none`. -/
theorem adjacent_element_scan (node parentNode : Node) (i : Nat)
    (hIdx : jsFindIndex (fun child => child.nid == node.nid) parentNode.children = some i) :
    getAdjacentElement node parentNode =
      (parentNode.children.drop (i + 1)).find? (fun c => c.isElement) := by
  simp only [getAdjacentElement, hIdx, scanForElement_eq_find]

/-- Witness for C7: in `sampleSibParent` the text child sits at index 0;
the lookup skips the comment at index 1 and returns the element at
index 2. -/
theorem adjacent_element_scan_witness :
    getAdjacentElement sampleSibText sampleSibParent = some sampleSibElemA :=
  (adjacent_element_scan sampleSibText sampleSibParent 0 rfl).trans rfl

/-- C10: when the node is not among the parent's children (identity lookup
misses, `findIndex` yields `-1`), both source revisions of the lookup
return the parent's first element child rather than reporting "not found"
(`none` only when the parent has no element children). -/
theorem adjacent_element_missing_node (node parentNode : Node)
    (hIdx : jsFindIndex (fun child => child.nid == node.nid) parentNode.children = none) :
    getAdjacentElement node parentNode = parentNode.children.find? (fun c => c.isElement) ∧
    getAdjacentElement2 node parentNode = parentNode.children.find? (fun c => c.isElement) := by
  constructor
  · simp only [getAdjacentElement, hIdx, List.drop_zero, scanForElement_eq_find]
  · have hfilter : jsFindIndex (fun c => c.nid == node.nid)
        (parentNode.children.filter (fun c => c.isElement)) = none := by
      rw [show jsFindIndex (fun c => c.nid == node.nid)
          (parentNode.children.filter (fun c => c.isElement))
        = jsFindIndexGo (fun c => c.nid == node.nid)
          (parentNode.children.filter (fun c => c.isElement)) 0 from rfl]
      rw [jsFindIndexGo_eq_none]
      intro x hx
      exact (jsFindIndexGo_eq_none.mp hIdx) x (List.mem_of_mem_filter hx)
    simp only [getAdjacentElement2, hfilter, filter_getZero_eq_find]

/-- Witness for C10: a stray node (identity tag 99) is not among the
children; both revisions return the first element child. -/
theorem adjacent_element_missing_node_witness :
    getAdjacentElement sampleStray sampleSibParent = some sampleSibElemA ∧
    getAdjacentElement2 sampleStray sampleSibParent = some sampleSibElemA := by
  have h := adjacent_element_missing_node sampleStray sampleSibParent rfl
  exact ⟨h.1.trans rfl, h.2.trans rfl⟩

/-! PascalCase conversion lemmas. -/

/-- The lowercase ASCII letters. -/
def LowerChar (c : Char) : Prop := 97 ≤ c.toNat ∧ c.toNat ≤ 122

lemma ofNat_toNat_valid {n : Nat} (h1 : 65 ≤ n) (h2 : n ≤ 90) :
    (Char.ofNat n).toNat = n := by
  unfold Char.ofNat
  split
  · rfl
  · rename_i h
    exact absurd (Or.inl (by omega)) h

lemma jsToUpperChar_toNat {c : Char} (h : LowerChar c) :
    (jsToUpperChar c).toNat = c.toNat - 32 := by
  have h' : 97 ≤ c.toNat ∧ c.toNat ≤ 122 := h
  unfold jsToUpperChar
  rw [if_pos h']
  exact ofNat_toNat_valid (by omega) (by omega)

lemma jsToUpperChar_fixed {c : Char} (h : ¬ LowerChar c) : jsToUpperChar c = c := by
  have h' : ¬ (97 ≤ c.toNat ∧ c.toNat ≤ 122) := h
  unfold jsToUpperChar
  rw [if_neg h']

lemma jsToUpperChar_not_lower {c : Char} (h : LowerChar c) :
    ¬ LowerChar (jsToUpperChar c) := by
  have := jsToUpperChar_toNat h
  unfold LowerChar at *
  omega

lemma jsToUpperChar_ne_underscore {c : Char} (h : LowerChar c) :
    jsToUpperChar c ≠ '_' := by
  intro he
  have h1 := jsToUpperChar_toNat h
  rw [he] at h1
  have h2 : ('_').toNat = 95 := rfl
  unfold LowerChar at h
  omega

lemma lower_ne_underscore {c : Char} (h : LowerChar c) : c ≠ '_' := by
  intro he
  rw [he] at h
  have h2 : ('_').toNat = 95 := rfl
  unfold LowerChar at h
  omega

lemma splitGo_underscore_chars {fuel : Nat} {s acc : List Char}
    (hf : s.length ≤ fuel)
    (hs : ∀ c ∈ s, c = '_' ∨ LowerChar c)
    (ha : ∀ c ∈ acc, LowerChar c) :
    ∀ part ∈ splitGo ['_'] fuel s acc, ∀ c ∈ part, LowerChar c := by
  induction fuel generalizing s acc with
  | zero =>
    have hsnil : s = [] := List.length_eq_zero.mp (Nat.le_zero.mp hf)
    subst hsnil
    intro part hpart c hc
    simp [splitGo] at hpart
    subst hpart
    exact ha c (List.mem_reverse.mp hc)
  | succ fuel ih =>
    match s with
    | [] =>
      intro part hpart c hc
      simp [splitGo] at hpart
      subst hpart
      exact ha c (List.mem_reverse.mp hc)
    | c :: rest =>
      simp only [splitGo]
      by_cases hp : List.isPrefixOf ['_'] (c :: rest)
      · rw [if_pos hp]
        intro part hpart
        rcases List.mem_cons.mp hpart with h | h
        · subst h
          intro d hd
          exact ha d (List.mem_reverse.mp hd)
        · refine ih ?_ ?_ ?_ part h
          · simpa using Nat.le_of_succ_le_succ (by simpa using hf)
          · intro d hd; exact hs d (List.mem_cons_of_mem _ hd)
          · intro d hd; exact absurd hd (List.not_mem_nil d)
      · rw [if_neg hp]
        have hc : c ≠ '_' := by
          intro he
          subst he
          simp [List.isPrefixOf] at hp
        have hcl : LowerChar c := by
          rcases hs c (List.mem_cons_self c rest) with h | h
          · exact absurd h hc
          · exact h
        refine ih ?_ ?_ ?_
        · simpa using Nat.le_of_succ_le_succ (by simpa using hf)
        · intro d hd; exact hs d (List.mem_cons_of_mem _ hd)
        · intro d hd
          rcases List.mem_cons.mp hd with h | h
          · subst h; exact hcl
          · exact ha d h

lemma splitGo_no_underscore {fuel : Nat} {s acc : List Char}
    (hf : s.length ≤ fuel)
    (hs : ∀ c ∈ s, c ≠ '_') :
    splitGo ['_'] fuel s acc = [acc.reverse ++ s] := by
  induction fuel generalizing s acc with
  | zero => rfl
  | succ fuel ih =>
    match s with
    | [] => simp [splitGo]
    | c :: rest =>
      simp only [splitGo]
      have hp : ¬ List.isPrefixOf ['_'] (c :: rest) := by
        intro hcon
        have : c = '_' := by
          simp [List.isPrefixOf] at hcon
          exact hcon.symm
        exact hs c (List.mem_cons_self c rest) this
      rw [if_neg hp]
      rw [ih (by simpa using Nat.le_of_succ_le_succ (by simpa using hf))
        (fun d hd => hs d (List.mem_cons_of_mem _ hd))]
      simp

lemma capitalize_flatten_chars {segs : List (List Char)}
    (hsegs : ∀ part ∈ segs, ∀ c ∈ part, LowerChar c) :
    ∀ c ∈ (segs.map capitalizeL).flatten, c ≠ '_' := by
  intro c hc
  rcases List.mem_flatten.mp hc with ⟨part, hpartmem, hcmem⟩
  rcases List.mem_map.mp hpartmem with ⟨orig, horig, hcap⟩
  subst hcap
  match orig with
  | [] => exact absurd hcmem (List.not_mem_nil c)
  | h :: t =>
    rcases List.mem_cons.mp hcmem with he | he
    · subst he
      exact jsToUpperChar_ne_underscore (hsegs _ horig h (List.mem_cons_self h t))
    · exact lower_ne_underscore (hsegs _ horig c (List.mem_cons_of_mem _ he))

lemma capitalize_flatten_fixed {segs : List (List Char)}
    (hsegs : ∀ part ∈ segs, ∀ c ∈ part, LowerChar c) :
    capitalizeL ((segs.map capitalizeL).flatten) = (segs.map capitalizeL).flatten := by
  induction segs with
  | nil => rfl
  | cons seg rest ih =>
    have hrest : ∀ part ∈ rest, ∀ c ∈ part, LowerChar c :=
      fun part hp => hsegs part (List.mem_cons_of_mem _ hp)
    match seg with
    | [] =>
      simpa [capitalizeL] using ih hrest
    | h :: t =>
      have hl : LowerChar h := hsegs _ (List.mem_cons_self _ rest) h (List.mem_cons_self h t)
      simp only [List.map_cons, List.flatten_cons, capitalizeL, List.cons_append]
      rw [jsToUpperChar_fixed (jsToUpperChar_not_lower hl)]

/-- C8: the snake_case to PascalCase conversion is idempotent on
underscore-delimited lowercase input, for both source copies of the
function (`snakeCaseToPascalCase` in `src/index.ts` and
`fromSnakeCaseToPascalCase` in `src/parseResource.ts`).  97..122 are the
code points of the lowercase ASCII letters. -/
theorem pascalCase_idempotent (x : String)
    (hx : ∀ c ∈ x.data, c = '_' ∨ (97 ≤ c.toNat ∧ c.toNat ≤ 122)) :
    snakeCaseToPascalCase (snakeCaseToPascalCase x) = snakeCaseToPascalCase x ∧
    fromSnakeCaseToPascalCase (fromSnakeCaseToPascalCase x) = fromSnakeCaseToPascalCase x := by
  have hsegs : ∀ part ∈ splitOnL ['_'] x.data, ∀ c ∈ part, LowerChar c :=
    splitGo_underscore_chars (Nat.le_refl _) hx (fun d hd => absurd hd (List.not_mem_nil d))
  have hmain : snakeCaseToPascalCase (snakeCaseToPascalCase x) = snakeCaseToPascalCase x := by
    unfold snakeCaseToPascalCase
    have hdata : (String.mk (((splitOnL ['_'] x.data).map capitalizeL).flatten)).data
        = ((splitOnL ['_'] x.data).map capitalizeL).flatten := rfl
    rw [hdata]
    have hnosep : ∀ c ∈ ((splitOnL ['_'] x.data).map capitalizeL).flatten, c ≠ '_' :=
      capitalize_flatten_chars hsegs
    rw [show splitOnL ['_'] (((splitOnL ['_'] x.data).map capitalizeL).flatten)
        = [((splitOnL ['_'] x.data).map capitalizeL).flatten] from
      splitGo_no_underscore (Nat.le_refl _) hnosep]
    simp only [List.map_cons, List.map_nil, List.flatten_cons, List.flatten_nil,
      List.append_nil]
    rw [capitalize_flatten_fixed hsegs]
  exact ⟨hmain, hmain⟩

/-- Witness for C8 at the underscore-delimited lowercase input
`"foo_bar"`. -/
theorem pascalCase_idempotent_witness :
    snakeCaseToPascalCase (snakeCaseToPascalCase "foo_bar") = snakeCaseToPascalCase "foo_bar" ∧
    fromSnakeCaseToPascalCase (fromSnakeCaseToPascalCase "foo_bar")
      = fromSnakeCaseToPascalCase "foo_bar" :=
  pascalCase_idempotent "foo_bar" (by decide)

/-! Attribute-extractor theorems. -/

/-- C1: for a direct-definition fragment whose definition list carries a
filter token, the extractor emits exactly one field per supported operator,
each named `baseName[operator]` (in operator order, so for a base property
`sort_by` — which takes the hard-coded operator pair — the fields are
exactly `sort_by[asc]` then `sort_by[desc]`), none of them named exactly
`baseName`, and each optional exactly when the definition list contains
`optional`. -/
theorem filterSet_expansion
    (fuel : Nat) (propertyElement item desc dfnEl : Node)
    (pn t : String) (defs ops : List String)
    (hSub : propertyElement.hasClass "sub-group" = false)
    (hDirect : propertyElement.hasClass "cb-list-action" = true ∨
      propertyElement.hasClass "cb-sublist-action" = true)
    (hItem : childFindClass propertyElement "cb-list-item" = some item)
    (hName : findSampText item = some pn)
    (hpn : (pn == "") = false)
    (hDesc : childFindClass propertyElement "cb-list-desc" = some desc)
    (hDfn : findDefinitionElement desc = some dfnEl)
    (hText : dfnEl.children.findSome? Node.asText? = some t)
    (hdefs : defs = (jsSplit ", " t).map jsTrim)
    (hFilter : hasFilterToken defs = true)
    (hOps : resolveOperators (replaceFirstL (jsTrim pn) "[" "") desc = .ok ops) :
    generateInterfacePropertySignature (fuel + 1) propertyElement =
      .ok (ops.map (fun op =>
        ⟨replaceFirstL (jsTrim pn) "[" "" ++ "[" ++ op ++ "]",
         defs.contains "optional", .unknownKw⟩), []) ∧
    (∀ sig ∈ ops.map (fun op =>
        (⟨replaceFirstL (jsTrim pn) "[" "" ++ "[" ++ op ++ "]",
          defs.contains "optional", .unknownKw⟩ : PropertySignature)),
      sig.name ≠ replaceFirstL (jsTrim pn) "[" "") ∧
    (replaceFirstL (jsTrim pn) "[" "" = "sort_by" → ops = ["asc", "desc"]) := by
  subst hdefs
  refine ⟨?_, ?_, ?_⟩
  · rcases hDirect with hD | hD <;>
      simp only [generateInterfacePropertySignature, hSub, hD, hItem, hName, hpn, hDesc,
        hDfn, hText, hFilter, hOps, Bool.not_true, Bool.not_false, Bool.false_and,
        Bool.and_false, Bool.true_and, Bool.and_true, Bool.false_eq_true,
        eq_self_iff_true, if_false, if_true]
  · intro sig hsig
    rcases List.mem_map.mp hsig with ⟨op, _, rfl⟩
    simp only [PropertySignature.name]
    intro h
    have hlen := congrArg String.length h
    rw [String.length_append, String.length_append, String.length_append] at hlen
    have h1 : String.length "[" = 1 := rfl
    have h2 : String.length "]" = 1 := rfl
    omega
  · intro hbase
    rw [hbase] at hOps
    simp [resolveOperators] at hOps
    exact hOps.symm

/-- Witness for C1 at the `sort_by` filter fragment. -/
theorem filterSet_expansion_witness :
    generateInterfacePropertySignature 1 sampleFilterFragment =
      .ok ([⟨"sort_by[asc]", true, .unknownKw⟩, ⟨"sort_by[desc]", true, .unknownKw⟩], []) :=
  ((filterSet_expansion 0 sampleFilterFragment sampleFilterItem sampleFilterDesc
    sampleFilterDfn "sort_by[" "string filter, optional"
    ["string filter", "optional"] ["asc", "desc"]
    rfl (Or.inl rfl) rfl rfl rfl rfl rfl rfl rfl rfl rfl).1).trans rfl

/-- C2: for a direct-definition fragment whose definition list contains
`enumerated string` and no higher-priority shape applies, the extractor
emits the collected enum-value samples as a union in visit (documentation)
order, duplicates preserved; when no enum value was collected it degrades
to the plain string type and emits a diagnostic instead of failing. -/
theorem enumeratedString_extraction
    (fuel : Nat) (propertyElement item desc dfnEl : Node)
    (pn t : String) (defs vs : List String)
    (hSub : propertyElement.hasClass "sub-group" = false)
    (hDirect : propertyElement.hasClass "cb-list-action" = true ∨
      propertyElement.hasClass "cb-sublist-action" = true)
    (hItem : childFindClass propertyElement "cb-list-item" = some item)
    (hName : findSampText item = some pn)
    (hpn : (pn == "") = false)
    (hDesc : childFindClass propertyElement "cb-list-desc" = some desc)
    (hDfn : findDefinitionElement desc = some dfnEl)
    (hText : dfnEl.children.findSome? Node.asText? = some t)
    (hdefs : defs = (jsSplit ", " t).map jsTrim)
    (hNoFilter : hasFilterToken defs = false)
    (hTP : childFindClass propertyElement "cb-list-group-in" = none)
    (hNoString : defs.contains "string" = false)
    (hNoListString : defs.contains "list of string" = false)
    (hNoNumber : hasNumberToken defs = false)
    (hNoBoolean : defs.contains "boolean" = false)
    (hNoJsonObject : defs.contains "jsonobject" = false)
    (hNoJsonArray : defs.contains "jsonarray" = false)
    (hEnum : defs.contains "enumerated string" = true)
    (hVals : collectEnumValues desc = .ok vs) :
    generateInterfacePropertySignature (fuel + 1) propertyElement =
      match vs with
      | [] => .ok ([⟨pn, defs.contains "optional", .stringKw⟩],
          ["Unable to parse string enum property for: " ++ pn])
      | _ => .ok ([⟨pn, defs.contains "optional", .enumUnion vs⟩], []) := by
  subst hdefs
  cases vs with
  | nil =>
    rcases hDirect with hD | hD <;>
      simp only [generateInterfacePropertySignature, hSub, hD, hItem, hName, hpn, hDesc,
        hDfn, hText, hNoFilter, hTP, hNoString, hNoListString, hNoNumber, hNoBoolean,
        hNoJsonObject, hNoJsonArray, hEnum, hVals, Bool.not_true, Bool.not_false,
        Bool.false_and, Bool.and_false, Bool.true_and, Bool.and_true, Bool.false_eq_true,
        eq_self_iff_true, if_false, if_true]
  | cons v vrest =>
    rcases hDirect with hD | hD <;>
      simp only [generateInterfacePropertySignature, hSub, hD, hItem, hName, hpn, hDesc,
        hDfn, hText, hNoFilter, hTP, hNoString, hNoListString, hNoNumber, hNoBoolean,
        hNoJsonObject, hNoJsonArray, hEnum, hVals, Bool.not_true, Bool.not_false,
        Bool.false_and, Bool.and_false, Bool.true_and, Bool.and_true, Bool.false_eq_true,
        eq_self_iff_true, if_false, if_true]

/-- Witness for C2 at the `status` fragment with the duplicated enum value
(the union keeps both copies, in documentation order). -/
theorem enumeratedString_extraction_witness :
    generateInterfacePropertySignature 1 sampleEnumFragment =
      .ok ([⟨"status", false, .enumUnion ["active", "active"]⟩], []) :=
  (enumeratedString_extraction 0 sampleEnumFragment sampleEnumItem sampleEnumDesc
    sampleEnumDfn "status" "enumerated string" ["enumerated string"] ["active", "active"]
    rfl (Or.inl rfl) rfl rfl rfl rfl rfl rfl rfl rfl rfl rfl rfl rfl rfl rfl rfl rfl
    rfl).trans rfl

/-- C3: an interface-reference fragment whose definition token (after
stripping a leading "list of " and the `optional` token) converts to the
type name `UnbilledCharge[]` is resolved to `UnbilledChargeEstimate[]`
(with the override warning), never to `UnbilledCharge[]`. -/
theorem unbilledCharge_reference_remap
    (fuel : Nat) (propertyElement item desc dfnEl : Node)
    (pn t d : String) (defs : List String)
    (hSub : propertyElement.hasClass "sub-group" = false)
    (hNoAction : propertyElement.hasClass "cb-list-action" = false)
    (hNoSubAction : propertyElement.hasClass "cb-sublist-action" = false)
    (hItem : childFindClass propertyElement "cb-list-item" = some item)
    (hName : findRefName item = .ok (some pn))
    (hpn : (pn == "") = false)
    (hDesc : childFindClass propertyElement "cb-list-desc" = some desc)
    (hDfn : findDefinitionElement desc = some dfnEl)
    (hText : dfnEl.children.findSome? Node.asText? = some t)
    (hdefs : defs = (jsSplit ", " t).map jsTrim)
    (hHead : (defs.filter (fun x => x != "optional")).head? = some d)
    (hRemap : referenceTypeName d = "UnbilledCharge[]") :
    generateInterfacePropertySignature (fuel + 1) propertyElement =
      .ok ([⟨pn, defs.contains "optional", .reference "UnbilledChargeEstimate[]"⟩],
        ["Overriding type reference of UnbilledCharge[] to UnbilledChargeEstimate[]"]) ∧
    TsType.reference "UnbilledChargeEstimate[]" ≠ TsType.reference "UnbilledCharge[]" := by
  subst hdefs
  constructor
  · simp only [generateInterfacePropertySignature, hSub, hNoAction, hNoSubAction, hItem,
      hName, hpn, hDesc, hDfn, hText, hHead, hRemap, Bool.not_true, Bool.not_false,
      Bool.false_and, Bool.and_false, Bool.true_and, Bool.and_true, Bool.and_self,
      Bool.false_eq_true, beq_self_eq_true, eq_self_iff_true, if_false, if_true]
  · intro h
    injection h with hnames
    exact absurd hnames (by decide)

/-- Witness for C3 at the `list of unbilled_charge` reference fragment. -/
theorem unbilledCharge_reference_remap_witness :
    generateInterfacePropertySignature 1 sampleUnbilledFragment =
      .ok ([⟨"unbilled_charges", true, .reference "UnbilledChargeEstimate[]"⟩],
        ["Overriding type reference of UnbilledCharge[] to UnbilledChargeEstimate[]"]) :=
  (unbilledCharge_reference_remap 0 sampleUnbilledFragment sampleUnbilledItem
    sampleUnbilledDesc sampleUnbilledDfn "unbilled_charges"
    "list of unbilled_charge, optional" "list of unbilled_charge"
    ["list of unbilled_charge", "optional"]
    rfl rfl rfl rfl rfl rfl rfl rfl rfl rfl rfl rfl).1

/-- C5: for a direct-definition fragment whose definition list contains
`jsonarray` and no higher-priority shape applies, the result is decided by
the property name: `notes` yields array-of-string with a warning,
`exemption_details` yields array-of-unknown, and any other name is a fatal
error naming the field. -/
theorem jsonarray_special_cases
    (fuel : Nat) (propertyElement item desc dfnEl : Node)
    (pn t : String) (defs : List String)
    (hSub : propertyElement.hasClass "sub-group" = false)
    (hDirect : propertyElement.hasClass "cb-list-action" = true ∨
      propertyElement.hasClass "cb-sublist-action" = true)
    (hItem : childFindClass propertyElement "cb-list-item" = some item)
    (hName : findSampText item = some pn)
    (hpn : (pn == "") = false)
    (hDesc : childFindClass propertyElement "cb-list-desc" = some desc)
    (hDfn : findDefinitionElement desc = some dfnEl)
    (hText : dfnEl.children.findSome? Node.asText? = some t)
    (hdefs : defs = (jsSplit ", " t).map jsTrim)
    (hNoFilter : hasFilterToken defs = false)
    (hTP : childFindClass propertyElement "cb-list-group-in" = none)
    (hNoString : defs.contains "string" = false)
    (hNoListString : defs.contains "list of string" = false)
    (hNoNumber : hasNumberToken defs = false)
    (hNoBoolean : defs.contains "boolean" = false)
    (hNoJsonObject : defs.contains "jsonobject" = false)
    (hJsonArray : defs.contains "jsonarray" = true) :
    generateInterfacePropertySignature (fuel + 1) propertyElement =
      if pn == "notes" then
        .ok ([⟨pn, defs.contains "optional", .arrayOf .stringKw⟩],
          ["Assuming array of strings for field: " ++ pn])
      else if pn == "exemption_details" then
        .ok ([⟨pn, defs.contains "optional", .arrayOf .unknownKw⟩], [])
      else .error ("Unknown array type for field: " ++ pn) := by
  subst hdefs
  rcases hDirect with hD | hD <;>
    simp only [generateInterfacePropertySignature, hSub, hD, hItem, hName, hpn, hDesc,
      hDfn, hText, hNoFilter, hTP, hNoString, hNoListString, hNoNumber, hNoBoolean,
      hNoJsonObject, hJsonArray, Bool.not_true, Bool.not_false, Bool.false_and,
      Bool.and_false, Bool.true_and, Bool.and_true, Bool.false_eq_true,
      eq_self_iff_true, if_false, if_true]

/-- Witness for C5 at the `notes` jsonarray fragment. -/
theorem jsonarray_special_cases_witness :
    generateInterfacePropertySignature 1 sampleNotesFragment =
      .ok ([⟨"notes", false, .arrayOf .stringKw⟩],
        ["Assuming array of strings for field: notes"]) :=
  (jsonarray_special_cases 0 sampleNotesFragment sampleNotesItem sampleNotesDesc
    sampleNotesDfn "notes" "jsonarray" ["jsonarray"]
    rfl (Or.inl rfl) rfl rfl rfl rfl rfl rfl rfl rfl rfl rfl rfl rfl rfl rfl rfl).trans rfl

/-- C9: every property signature the sub-group branch emits carries the
question token unconditionally: whenever the extractor succeeds on a
fragment marked `sub-group`, every emitted field is optional, whatever the
fragment's definition list says. -/
theorem subGroup_always_optional
    (fuel : Nat) (propertyElement : Node) (sigs : List PropertySignature) (ws : List String)
    (hSub : propertyElement.hasClass "sub-group" = true)
    (hRun : generateInterfacePropertySignature fuel propertyElement = .ok (sigs, ws)) :
    ∀ sig ∈ sigs, sig.optional = true := by
  match fuel with
  | 0 => exact absurd hRun (by simp [generateInterfacePropertySignature])
  | fuel + 1 =>
    simp only [generateInterfacePropertySignature, hSub, if_true] at hRun
    repeat' split at hRun
    all_goals try exact Except.noConfusion hRun
    all_goals (
      injection hRun with h
      injection h with h1 h2
      subst h1
      intro sig hsig
      rw [List.mem_singleton] at hsig
      subst hsig
      rfl)

/-- Witness for C9: the `billing_address` sub-group fragment has no
`optional` token anywhere, yet its field is emitted optional. -/
theorem subGroup_always_optional_witness :
    PropertySignature.optional ⟨"billing_address", true, .typeLiteral []⟩ = true :=
  subGroup_always_optional 1 sampleSubGroupPlain
    [⟨"billing_address", true, .typeLiteral []⟩] [] rfl rfl
    ⟨"billing_address", true, .typeLiteral []⟩ (List.mem_singleton.mpr rfl)

/-- Counterexample to C4 as stated: `sampleSubGroupFragment` carries a
definition list (`["string"]`, no `optional` token), yet its emitted field
is optional — the sub-group branch never consults the token. -/
theorem optional_iff_token_counterexample :
    generateInterfacePropertySignature 1 sampleSubGroupFragment =
      .ok ([⟨"foo", true, .arrayOf (.typeLiteral [])⟩], []) ∧
    ((fragmentDefinitions sampleSubGroupFragment).getD []).contains "optional" = false ∧
    PropertySignature.optional ⟨"foo", true, .arrayOf (.typeLiteral [])⟩ = true :=
  ⟨rfl, rfl, rfl⟩

set_option maxHeartbeats 2000000 in
/-- C4 (amended): for every property fragment NOT carrying the `sub-group`
marker class, the emitted fields are optional exactly when the fragment's
comma-separated definition list (split on ", ", segments trimmed) contains
the token `optional`; absence of the token yields required fields. -/
theorem optional_iff_token_outside_subGroup
    (fuel : Nat) (propertyElement : Node) (sigs : List PropertySignature) (ws : List String)
    (hSub : propertyElement.hasClass "sub-group" = false)
    (hRun : generateInterfacePropertySignature fuel propertyElement = .ok (sigs, ws)) :
    ∀ sig ∈ sigs,
      sig.optional = ((fragmentDefinitions propertyElement).getD []).contains "optional" := by
  match fuel with
  | 0 => exact absurd hRun (by simp [generateInterfacePropertySignature])
  | fuel + 1 =>
    simp only [generateInterfacePropertySignature, hSub, Bool.false_eq_true, if_false] at hRun
    cases hItem : childFindClass propertyElement "cb-list-item" with
    | none =>
      rw [hItem] at hRun
      exact Except.noConfusion hRun
    | some item =>
      simp only [hItem] at hRun
      cases hRef : (!propertyElement.hasClass "cb-list-action" &&
          !propertyElement.hasClass "cb-sublist-action") with
      | true =>
        simp only [hRef, if_true] at hRun
        cases hNm : findRefName item with
        | error e =>
          rw [hNm] at hRun
          exact Except.noConfusion hRun
        | ok o =>
          simp only [hNm] at hRun
          cases o with
          | none => exact Except.noConfusion hRun
          | some pn =>
            cases hpn : (pn == "") with
            | true =>
            simp only [hpn, eq_self_iff_true, if_true] at hRun
            exact Except.noConfusion hRun
            | false =>
              simp only [hpn, Bool.false_eq_true, if_false] at hRun
              cases hDesc : childFindClass propertyElement "cb-list-desc" with
              | none =>
              rw [hDesc] at hRun
              exact Except.noConfusion hRun
              | some desc =>
                simp only [hDesc] at hRun
                cases hDfn : findDefinitionElement desc with
                | none =>
                rw [hDfn] at hRun
                exact Except.noConfusion hRun
                | some dfnEl =>
                  simp only [hDfn] at hRun
                  cases hText : dfnEl.children.findSome? Node.asText? with
                  | none =>
                  rw [hText] at hRun
                  exact Except.noConfusion hRun
                  | some t =>
                    simp only [hText] at hRun
                    have hfrag : fragmentDefinitions propertyElement =
                        some ((jsSplit ", " t).map jsTrim) := by
                      simp only [fragmentDefinitions, hDesc, hDfn, hText]
                    repeat' split at hRun
                    all_goals try exact Except.noConfusion hRun
                    all_goals (
                      injection hRun with h
                      injection h with h1 h2
                      subst h1
                      intro sig hsig
                      rw [List.mem_singleton] at hsig
                      subst hsig
                      simp [PropertySignature.optional, hfrag])
      | false =>
        simp only [hRef, Bool.false_eq_true, if_false] at hRun
        cases hNm : findSampText item with
        | none =>
          rw [hNm] at hRun
          exact Except.noConfusion hRun
        | some pn =>
          cases hpn : (pn == "") with
          | true =>
            simp only [hNm, hpn, eq_self_iff_true, if_true] at hRun
            exact Except.noConfusion hRun
          | false =>
            simp only [hNm, hpn, Bool.false_eq_true, if_false] at hRun
            cases hDesc : childFindClass propertyElement "cb-list-desc" with
            | none =>
              rw [hDesc] at hRun
              exact Except.noConfusion hRun
            | some desc =>
              simp only [hDesc] at hRun
              cases hDfn : findDefinitionElement desc with
              | none =>
                rw [hDfn] at hRun
                exact Except.noConfusion hRun
              | some dfnEl =>
                simp only [hDfn] at hRun
                cases hText : dfnEl.children.findSome? Node.asText? with
                | none =>
                  rw [hText] at hRun
                  exact Except.noConfusion hRun
                | some t =>
                  simp only [hText] at hRun
                  have hfrag : fragmentDefinitions propertyElement =
                      some ((jsSplit ", " t).map jsTrim) := by
                    simp only [fragmentDefinitions, hDesc, hDfn, hText]
                  repeat' split at hRun
                  all_goals try exact Except.noConfusion hRun
                  all_goals (
                    injection hRun with h
                    injection h with h1 h2
                    subst h1
                    intro sig hsig
                    first
                      | (rw [List.mem_singleton] at hsig
                         subst hsig
                         simp [PropertySignature.optional, hfrag])
                      | (rcases List.mem_map.mp hsig with ⟨op, hop, rfl⟩
                         simp [PropertySignature.optional, hfrag]))

/-- Witness for the amended C4 at the `price` fragment (`string,
optional`). -/
theorem optional_iff_token_outside_subGroup_witness :
    PropertySignature.optional ⟨"price", true, .stringKw⟩ =
      ((fragmentDefinitions sampleStringFragment).getD []).contains "optional" :=
  optional_iff_token_outside_subGroup 1 sampleStringFragment
    [⟨"price", true, .stringKw⟩] [] rfl rfl
    ⟨"price", true, .stringKw⟩ (List.mem_singleton.mpr rfl)

/-- If a list-level `mapME` succeeds, every input element was mapped
successfully to some member of the output. -/
lemma mapME_ok_mem {α β : Type} {f : α → Except String β} {l : List α} {res : List β}
    (h : mapME f l = .ok res) {x : α} (hx : x ∈ l) :
    ∃ y, f x = .ok y ∧ y ∈ res := by
  induction l generalizing res with
  | nil => exact absurd hx (List.not_mem_nil x)
  | cons a as ih =>
    simp only [mapME] at h
    cases hfa : f a with
    | error e =>
      simp only [hfa] at h
      exact Except.noConfusion h
    | ok b =>
      simp only [hfa] at h
      cases hrest : mapME f as with
      | error e =>
        simp only [hrest] at h
        exact Except.noConfusion h
      | ok bs =>
        simp only [hrest] at h
        injection h with h
        subst h
        rcases List.mem_cons.mp hx with rfl | hx2
        · exact ⟨b, hfa, List.mem_cons_self b bs⟩
        · rcases ih hrest hx2 with ⟨y, hfy, hymem⟩
          exact ⟨y, hfy, List.mem_cons_of_mem b hymem⟩

/-- C6: every visited page-heading element whose identifier ends in
`_attributes` contributes an auxiliary interface to the Model Builder's
output, named by the identifier prefix converted snake_case→PascalCase,
with the properties extracted from the contiguous following `cb-list`
siblings (non-element siblings skipped, stopping at the first element
sibling without the marker). -/
theorem auxiliary_type_sections
    (fuel : Nat) (r : Root) (el parent headingEl : Node) (index : Nat)
    (id : String) (rs : List (List PropertySignature × List String))
    (decls : List (String × List PropertySignature)) (ws : List String)
    (hMem : (el, some (parent, index)) ∈ rootElements r)
    (hTag : el.tagName = "div")
    (hCls : el.hasClass "page-header" = true)
    (hHd : el.children.find? (fun c => c.tagName == "h4") = some headingEl)
    (hId : headingEl.idAttr.getD "" = id)
    (hSuffix : endsWithL id "_attributes" = true)
    (hProps : mapME (generateInterfacePropertySignature fuel)
      (takeContiguousCbList (parent.children.drop (index + 1))) = .ok rs)
    (hRun : generateModuleInterfaces fuel r = .ok (decls, ws)) :
    (snakeCaseToPascalCase (replaceFirstL id "_attributes" ""),
      (rs.map Prod.fst).flatten) ∈ decls := by
  have hContrib : headerContribution fuel (el, some (parent, index)) =
      .ok (some (snakeCaseToPascalCase (replaceFirstL id "_attributes" ""),
        (rs.map Prod.fst).flatten), (rs.map Prod.snd).flatten) := by
    simp only [headerContribution, hTag, hCls, hHd, hId, hSuffix, hProps,
      beq_self_eq_true, Bool.true_and, Bool.and_self, if_true]
  simp only [generateModuleInterfaces] at hRun
  cases hMap : mapME (headerContribution fuel) (rootElements r) with
  | error e =>
    simp only [hMap] at hRun
    exact Except.noConfusion hRun
  | ok contribs =>
    simp only [hMap] at hRun
    injection hRun with h
    injection h with h1 h2
    subst h1
    rcases mapME_ok_mem hMap hMem with ⟨y, hy, hymem⟩
    have hyval := (hContrib.symm.trans hy)
    injection hyval with hyval
    exact List.mem_filterMap.mpr ⟨y, hymem, by rw [← hyval]⟩

/-- Witness for C6: the `linked_invoice_attributes` heading of
`sampleAuxRoot` produces the auxiliary interface `LinkedInvoice` with the
single `amount` property of its one `cb-list` sibling. -/
theorem auxiliary_type_sections_witness :
    ("LinkedInvoice", [(⟨"amount", false, TsType.numberKw⟩ : PropertySignature)]) ∈
      [("LinkedInvoice", [(⟨"amount", false, TsType.numberKw⟩ : PropertySignature)])] :=
  auxiliary_type_sections 1 sampleAuxRoot sampleAuxHeader (rootNode sampleAuxRoot)
    sampleAuxHeading 0 "linked_invoice_attributes"
    [([⟨"amount", false, .numberKw⟩], [])]
    [("LinkedInvoice", [⟨"amount", false, .numberKw⟩])] []
    (List.Mem.head _) rfl rfl rfl rfl rfl rfl rfl
end Chargebee
